import Mathlib

/-!
Shallow embedding of the ccsat DPLL SAT solver (src/SAT.h, src/SAT.cc).

Modelling conventions, fixed once for the whole development:
- `var_t = uint32_t` is modeled as `Nat` (no arithmetic is ever performed on variables,
  so no wraparound can occur).
- `std::unordered_map` / `std::unordered_set` are modeled as association lists / lists kept
  in insertion order.  The C++ iteration order over these containers is unspecified;
  insertion order is one concrete admissible order, and all container reads in the source
  are by key except the iterations in `_init`, `_chooseVar`, `_findPure` and
  `_completeModel`, whose per-element work is order-independent or is an explicit
  "pick the first" choice that the spec leaves to the implementation.
- `Lit*` watcher pointers are modeled by the pointed-to literal value (`Option Lit`):
  every use of a watcher in the source dereferences it and compares or copies the literal
  value, so the value determines all observable behavior.
- `assert(...)` failures and C++ undefined behavior (reading `top()` of an empty stack,
  reading an uninitialized variable) are modeled by `Option`, with `none` meaning the
  run aborts; the uninitialized `initial_var` read in `_init` is modeled by an explicit
  `junk` parameter.
- exceptions (`std::out_of_range` from `Model::at`) are modeled by `Option` results on
  the evaluation functions.
- the unbounded `while` loops of `_assign`, `_backtrack` and `_DPLL` are modeled with an
  explicit fuel parameter; running out of fuel is `none`.
-/

set_option maxHeartbeats 1000000

namespace ccsat

/-- Variable identifiers, `var_t = uint32_t` in SAT.h. -/
abbrev Var := Nat

/-- A literal (SAT.h): a variable together with a sign, `false` = positive,
`true` = negative. -/
structure Lit where
  var : Var
  sign : Bool
deriving DecidableEq, Repr, Inhabited

/-- `Lit::negate` (SAT.h line 24). -/
def Lit.negate (l : Lit) : Lit := ⟨l.var, !l.sign⟩

/-- `Model = std::unordered_map<var_t, bool>` (SAT.h line 18), as an association list with
the most recent insertion first. -/
abbrev Model := List (Var × Bool)

/-- Key lookup in an association list; models `unordered_map::at` / `count` / `find`. -/
def lookupKey {α : Type} : List (Var × α) → Var → Option α
  | [], _ => none
  | p :: rest, v => if p.1 = v then some p.2 else lookupKey rest v

/-- `Lit::eval` (SAT.h line 28): `sign ^ m.at(var)`; `m.at` throws `std::out_of_range`
when `var` is unassigned, modeled by `none`. -/
def Lit.eval (l : Lit) (m : Model) : Option Bool :=
  (lookupKey m l.var).map (fun b => Bool.xor l.sign b)

/-- A clause (SAT.h): an ordered sequence of literals. -/
structure Clause where
  lits : List Lit
deriving DecidableEq, Repr, Inhabited

/-- Loop body of `Clause::eval` (SAT.h lines 45-51): scan the literals in order,
return true at the first literal that evaluates to true; a thrown exception
(unassigned variable) propagates. -/
def Clause.evalGo (m : Model) : List Lit → Option Bool
  | [] => some false
  | l :: rest =>
    match Lit.eval l m with
    | none => none
    | some true => some true
    | some false => Clause.evalGo m rest

/-- `Clause::eval` (SAT.h lines 45-51). -/
def Clause.eval (c : Clause) (m : Model) : Option Bool := Clause.evalGo m c.lits

/-- A CNF formula (SAT.h): an ordered sequence of clauses. -/
structure CNF where
  clauses : List Clause
deriving DecidableEq, Repr, Inhabited

/-- Loop body of `CNF::eval` (SAT.h lines 61-67): false at the first unsatisfied clause;
exceptions propagate. -/
def CNF.evalGo (m : Model) : List Clause → Option Bool
  | [] => some true
  | c :: rest =>
    match Clause.eval c m with
    | none => none
    | some false => some false
    | some true => CNF.evalGo m rest

/-- `CNF::eval` (SAT.h lines 61-67). -/
def CNF.eval (f : CNF) (m : Model) : Option Bool := CNF.evalGo m f.clauses

/-- `DPLLSolver::_ClauseState` (SAT.h lines 85-97): the watched pair (two `Lit*`,
modeled by the pointed-to values) and the active flag. -/
structure ClauseState where
  watchedFst : Option Lit
  watchedSnd : Option Lit
  active : Bool
deriving DecidableEq, Repr, Inhabited

/-- `DPLLSolver::_SolverDelta` (SAT.h lines 100-114): forced literals (appended at the
back), the principal decision, and prior clause states with their indices. -/
structure SolverDelta where
  forced : List Lit
  principal : Lit
  priors : List (Nat × ClauseState)
deriving DecidableEq, Repr

/-- `_SolverDelta::store` (SAT.cc lines 365-375): keep only the oldest prior per
clause index. -/
def SolverDelta.store (d : SolverDelta) (cspair : Nat × ClauseState) : SolverDelta :=
  if d.priors.any (fun st => st.1 == cspair.1) then d
  else {d with priors := d.priors ++ [cspair]}

/-- The private state of a `DPLLSolver` (SAT.h lines 173-192).  Stacks have their top at
the head of the list. -/
@[ext]
structure SolverState where
  inst : CNF
  model : Model
  vars : List Var
  clause_states : List ClauseState
  deltas : List SolverDelta
  assn_stack : List Lit
  pos_map : List (Var × List Nat)
  neg_map : List (Var × List Nat)
deriving DecidableEq, Repr

/-- A freshly constructed `DPLLSolver`: every container empty. -/
def initialState : SolverState := ⟨⟨[]⟩, [], [], [], [], [], [], []⟩

/-- Default used to model an out-of-range `std::vector` read (undefined behavior in C++;
never reached on indices coming from the occurrence maps of a fresh solve). -/
def csDefault : ClauseState := ⟨none, none, true⟩

/-- Default clause for out-of-range clause reads (same caveat as `csDefault`). -/
def clauseDefault : Clause := ⟨[]⟩

/-- Read `_clause_states[i]`. -/
def getCS (s : SolverState) (i : Nat) : ClauseState := s.clause_states.getD i csDefault

/-- Write `_clause_states[i]`. -/
def setCS (s : SolverState) (i : Nat) (cs : ClauseState) : SolverState :=
  {s with clause_states := s.clause_states.set i cs}

/-- Read `_instance.clauses[i]`. -/
def getClause (s : SolverState) (i : Nat) : Clause := s.inst.clauses.getD i clauseDefault

/-- Read `_pos_map[v]` / `_neg_map[v]` in a context where the entry exists (all keyed
reads in the solver are on variables inserted by `_init`); `operator[]` on a missing key
default-constructs an empty vector, hence the `[]` default. -/
def mapGetD (m : List (Var × List Nat)) (v : Var) : List Nat := (lookupKey m v).getD []

/-- `DPLLSolver::_isAssigned` (SAT.cc lines 339-341). -/
def isAssigned (m : Model) (v : Var) : Bool := (lookupKey m v).isSome

/-- `DPLLSolver::_findUnassigned` (SAT.cc lines 343-352): first literal of the clause
that is unassigned and (when `banned` is present) not equal by value to the banned
literal. -/
def findUnassigned (m : Model) (c : Clause) (banned : Option Lit) : Option Lit :=
  c.lits.find? (fun l =>
    !(isAssigned m l.var) &&
      (match banned with
       | none => true
       | some b => !(l == b)))

/-- `DPLLSolver::_chooseVar` (SAT.cc lines 354-363): first unassigned variable in the
iteration order of `_vars`. -/
def chooseVar (s : SolverState) : Option Var :=
  s.vars.find? (fun v => !(isAssigned s.model v))

/-- `DPLLSolver::_hasEmpty` (SAT.cc lines 309-315). -/
def hasEmpty (s : SolverState) : Bool :=
  s.clause_states.any (fun cs => cs.active && cs.watchedFst.isNone && cs.watchedSnd.isNone)

/-- `DPLLSolver::_allInactive` (SAT.cc lines 331-337). -/
def allInactive (s : SolverState) : Bool :=
  s.clause_states.all (fun cs => !cs.active)

/-- `DPLLSolver::_complete` (SAT.cc lines 323-329). -/
def complete (s : SolverState) : Bool :=
  s.vars.all (fun v => isAssigned s.model v)

/-- `DPLLSolver::_findUnit` (SAT.cc lines 245-261): first active clause state with
exactly one present watcher, returning that watcher. -/
def findUnit (s : SolverState) : Option Lit :=
  s.clause_states.findSome? (fun cs =>
    if cs.active then
      match cs.watchedFst, cs.watchedSnd with
      | none, some w => some w
      | some w, none => some w
      | _, _ => none
    else none)

/-- Per-variable body of `DPLLSolver::_findPure` (SAT.cc lines 265-301).  The two C++
loops break at the first active clause of each occurrence list, so `found`/`pol` are
determined by whether each side has any active occurrence. -/
def findPureAt (s : SolverState) (v : Var) : Option Lit :=
  let posActive := (mapGetD s.pos_map v).any (fun i => (getCS s i).active)
  let negActive := (mapGetD s.neg_map v).any (fun i => (getCS s i).active)
  if posActive then (if negActive then none else some ⟨v, false⟩)
  else if negActive then some ⟨v, true⟩
  else none

/-- `DPLLSolver::_findPure` (SAT.cc lines 265-301): scan `_vars`, skip assigned
variables, return the first pure literal. -/
def findPure (s : SolverState) : Option Lit :=
  s.vars.findSome? (fun v => if isAssigned s.model v then none else findPureAt s v)

/-- The `pos_indices` reference of `_unitPropagate` (SAT.cc lines 199-200): indices of
the clauses satisfied by `lit`.  The same selection picks the occurrence list that
`_pureAssign` deactivates (SAT.cc lines 233-234). -/
def posIndicesOf (s : SolverState) (lit : Lit) : List Nat :=
  if lit.sign then mapGetD s.neg_map lit.var else mapGetD s.pos_map lit.var

/-- The `neg_indices` reference of `_unitPropagate` (SAT.cc lines 201-202): indices of
the clauses containing the negation of `lit`. -/
def negIndicesOf (s : SolverState) (lit : Lit) : List Nat :=
  if lit.sign then mapGetD s.pos_map lit.var else mapGetD s.neg_map lit.var

/-- Body of the first loop of `_unitPropagate` (SAT.cc lines 204-211) and of the loop of
`_pureAssign` (SAT.cc lines 236-242), which duplicate the same code: if clause `i` is
still active, store its prior state and mark it inactive. -/
def satStep (acc : SolverState × SolverDelta) (i : Nat) : SolverState × SolverDelta :=
  let cs := getCS acc.1 i
  if cs.active then (setCS acc.1 i {cs with active := false}, acc.2.store (i, cs))
  else acc

/-- Body of the second loop of `_unitPropagate` (SAT.cc lines 214-228): store the prior
state unconditionally (no activity check in the source), then refresh whichever watcher
equals the negated literal by searching the clause for an unassigned literal distinct
from the other watcher. -/
def watchStep (negated : Lit) (acc : SolverState × SolverDelta) (i : Nat) :
    SolverState × SolverDelta :=
  let cs := getCS acc.1 i
  let fr := acc.2.store (i, cs)
  if cs.watchedFst = some negated then
    (setCS acc.1 i
      {cs with watchedFst := findUnassigned acc.1.model (getClause acc.1 i) cs.watchedSnd},
     fr)
  else if cs.watchedSnd = some negated then
    (setCS acc.1 i
      {cs with watchedSnd := findUnassigned acc.1.model (getClause acc.1 i) cs.watchedFst},
     fr)
  else (acc.1, fr)

/-- `DPLLSolver::_unitPropagate` (SAT.cc lines 197-229). -/
def unitPropagate (s0 : SolverState) (lit : Lit) (fr0 : SolverDelta) :
    SolverState × SolverDelta :=
  let step1 := (posIndicesOf s0 lit).foldl satStep (s0, fr0)
  (negIndicesOf s0 lit).foldl (watchStep lit.negate) step1

/-- `DPLLSolver::_pureAssign` (SAT.cc lines 231-243): deactivate the active clauses of
the pure literal's occurrence list, storing priors.  The index selection
`pure.sign ? _neg_map : _pos_map` coincides with `posIndicesOf`. -/
def pureAssign (s0 : SolverState) (p : Lit) (fr0 : SolverDelta) :
    SolverState × SolverDelta :=
  (posIndicesOf s0 p).foldl satStep (s0, fr0)

/-- The `while (_findUnit(&unit))` loop of `_assign` (SAT.cc lines 179-186), with fuel.
The forced literal is appended before the `assert(_model.count(unit.var) == 0)`, which
is modeled by the `isAssigned` guard (`none` = assertion failure).  The C++ loop body
returns from `_assign` when `_hasEmpty()`; here the caller re-checks `hasEmpty` on the
returned state, which is equivalent because the loop is entered only with no empty
clause present. -/
def assignUnits : Nat → SolverState → SolverDelta → Option (SolverState × SolverDelta)
  | 0, _, _ => none
  | fuel+1, s, fr =>
    match findUnit s with
    | none => some (s, fr)
    | some u =>
      let fr1 := {fr with forced := fr.forced ++ [u]}
      if isAssigned s.model u.var then none
      else
        let s1 := {s with model := (u.var, !u.sign) :: s.model}
        let sf := unitPropagate s1 u fr1
        if hasEmpty sf.1 then some sf
        else assignUnits fuel sf.1 sf.2

/-- The `while (_findPure(&pure))` loop of `_assign` (SAT.cc lines 189-194), with
fuel. -/
def assignPures : Nat → SolverState → SolverDelta → Option (SolverState × SolverDelta)
  | 0, _, _ => none
  | fuel+1, s, fr =>
    match findPure s with
    | none => some (s, fr)
    | some p =>
      let fr1 := {fr with forced := fr.forced ++ [p]}
      if isAssigned s.model p.var then none
      else
        let s1 := {s with model := (p.var, !p.sign) :: s.model}
        let sf := pureAssign s1 p fr1
        assignPures fuel sf.1 sf.2

/-- Push a completed frame onto `_deltas`.  The C++ `_assign` emplaces the frame at the
top of `_deltas` on entry and fills it in place; nothing reads `_deltas` during the
call, so threading the frame and pushing it at every exit is equivalent. -/
def pushDelta (s : SolverState) (fr : SolverDelta) : SolverState :=
  {s with deltas := fr :: s.deltas}

/-- `DPLLSolver::_assign` (SAT.cc lines 166-195): record the principal literal
(`assert(_model.count(lit.var) == 0)` modeled by the guard), propagate it, then run the
unit loop and the pure loop, returning early whenever an empty clause appears. -/
def assign (s : SolverState) (lit : Lit) : Option SolverState :=
  let fr0 : SolverDelta := ⟨[], lit, []⟩
  if isAssigned s.model lit.var then none
  else
    let s1 := {s with model := (lit.var, !lit.sign) :: s.model}
    let p1 := unitPropagate s1 lit fr0
    if hasEmpty p1.1 then some (pushDelta p1.1 p1.2)
    else
      match assignUnits (s1.vars.length + 1) p1.1 p1.2 with
      | none => none
      | some p2 =>
        if hasEmpty p2.1 then some (pushDelta p2.1 p2.2)
        else
          match assignPures (p2.1.vars.length + 1) p2.1 p2.2 with
          | none => none
          | some p3 => some (pushDelta p3.1 p3.2)

/-- `unordered_map::erase` by key (used on `_model`, whose keys are distinct), modeled
by filtering the key out. -/
def eraseKey (m : Model) (v : Var) : Model :=
  m.filter (fun p => !(p.1 == v))

/-- `DPLLSolver::_undo` (SAT.cc lines 127-148): pop the top frame, erase the principal
and forced variables from the model, and write every stored prior clause state back. -/
def undo (s : SolverState) : Option SolverState :=
  match s.deltas with
  | [] => none
  | delta :: rest =>
    let m1 := eraseKey s.model delta.principal.var
    let m2 := delta.forced.foldl (fun m l => eraseKey m l.var) m1
    let cs := delta.priors.foldl (fun cs p => cs.set p.1 p.2) s.clause_states
    some {s with deltas := rest, model := m2, clause_states := cs}

/-- The `while` loop of `_backtrack` (SAT.cc lines 154-157), with fuel.  When `_deltas`
empties before the matching principal is found, the C++ loop condition reads `top()` of
an empty stack (undefined behavior): modeled by `none`.  The in-loop `_undo` can never
report failure because the condition just read a nonempty top. -/
def backtrackLoop : Nat → SolverState → Lit → Option SolverState
  | 0, _, _ => none
  | fuel+1, s, target =>
    match s.deltas with
    | [] => none
    | d :: _ =>
      if d.principal = target then undo s
      else
        match undo s with
        | none => none
        | some s1 => backtrackLoop fuel s1 target

/-- `DPLLSolver::_backtrack` (SAT.cc lines 150-164): fail fast on an empty trail or an
empty pending-decision stack, else undo down to (and including) the frame whose
principal is the negation of the pending top. -/
def backtrack (s : SolverState) : Option (Bool × SolverState) :=
  match s.deltas, s.assn_stack with
  | [], _ => some (false, s)
  | _, [] => some (false, s)
  | _ :: _, top :: _ =>
    match backtrackLoop (s.deltas.length + 1) s top.negate with
    | none => none
    | some s1 => some (true, s1)

/-- `DPLLSolver::_completeModel` (SAT.cc lines 317-321): assign every unassigned
variable to false. -/
def completeModel (s : SolverState) : SolverState :=
  {s with model := s.vars.foldl (fun m v => if isAssigned m v then m else (v, false) :: m) s.model}

/-- `DPLLSolver::_DPLL` (SAT.cc lines 79-125), with fuel for the unbounded search loop.
One iteration: pop and assign the pending decision, then test termination, conflict and
completeness, else branch on a fresh variable, pushing its negative literal first and
its positive literal second (the positive one ends on top). -/
def dpll : Nat → SolverState → Option (Bool × SolverState)
  | 0, _ => none
  | fuel+1, s =>
    match s.assn_stack with
    | [] => some (false, s)
    | top :: rest =>
      match assign s top with
      | none => none
      | some sa0 =>
        let sa := {sa0 with assn_stack := rest}
        if allInactive sa then some (true, completeModel sa)
        else if hasEmpty sa then
          match backtrack sa with
          | none => none
          | some r => if r.1 then dpll fuel r.2 else some (false, r.2)
        else if complete sa then
          match CNF.eval sa.inst sa.model with
          | none => none
          | some true => some (true, sa)
          | some false =>
            match backtrack sa with
            | none => none
            | some r => if r.1 then dpll fuel r.2 else some (false, r.2)
        else
          match chooseVar sa with
          | none => some (false, sa)
          | some v => dpll fuel {sa with assn_stack := Lit.mk v false :: Lit.mk v true :: rest}

/-- The `_vars` construction of `_init` (SAT.cc lines 37-39): insert every literal's
variable into the (insertion-ordered) variable set. -/
def buildVars (vs0 : List Var) (cnf : CNF) : List Var :=
  cnf.clauses.foldl (fun vs c =>
    c.lits.foldl (fun vs l => if vs.contains l.var then vs else vs ++ [l.var]) vs) vs0

/-- The `_clause_states` construction of `_init` (SAT.cc lines 42-49): append one state
per clause, watching the first unassigned literal and the first unassigned literal
distinct from it, under the current (not cleared!) model. -/
def initClauseStates (m : Model) (cnf : CNF) (cs0 : List ClauseState) : List ClauseState :=
  cnf.clauses.foldl (fun acc c =>
    let w1 := findUnassigned m c none
    let w2 := findUnassigned m c w1
    acc ++ [⟨w1, w2, true⟩]) cs0

/-- `unordered_map::insert` on the occurrence maps: no-op when the key is present. -/
def mapInsertIfAbsent (m : List (Var × List Nat)) (v : Var) : List (Var × List Nat) :=
  if (lookupKey m v).isSome then m else m ++ [(v, [])]

/-- `_pos_map[var].push_back(i)` / `_neg_map[var].push_back(i)`. -/
def mapAdjust (m : List (Var × List Nat)) (v : Var) (i : Nat) : List (Var × List Nat) :=
  m.map (fun p => if p.1 = v then (p.1, p.2 ++ [i]) else p)

/-- The innermost loop of the occurrence-map construction (SAT.cc lines 57-67), for one
clause `i` and one variable `v`.  Note the C++ `else if`: a negative literal whose
clause index is already in the negative map falls through to the positive-map branch. -/
def occClauseLits (v : Var) (i : Nat) (lits : List Lit)
    (pn : List (Var × List Nat) × List (Var × List Nat)) :
    List (Var × List Nat) × List (Var × List Nat) :=
  lits.foldl (fun pn l =>
    if l.var = v then
      if l.sign && !((mapGetD pn.2 v).contains i) then (pn.1, mapAdjust pn.2 v i)
      else if !((mapGetD pn.1 v).contains i) then (mapAdjust pn.1 v i, pn.2)
      else pn
    else pn) pn

/-- The clause loop of the occurrence-map construction (SAT.cc lines 56-68). -/
def occClauses (v : Var) : Nat → List Clause →
    (List (Var × List Nat) × List (Var × List Nat)) →
    (List (Var × List Nat) × List (Var × List Nat))
  | _, [], pn => pn
  | i, c :: rest, pn => occClauses v (i+1) rest (occClauseLits v i c.lits pn)

/-- The `_pos_map` / `_neg_map` construction of `_init` (SAT.cc lines 51-69). -/
def buildOccMaps (vars : List Var) (clauses : List Clause)
    (pn0 : List (Var × List Nat) × List (Var × List Nat)) :
    List (Var × List Nat) × List (Var × List Nat) :=
  vars.foldl (fun pn v =>
    occClauses v 0 clauses (mapInsertIfAbsent pn.1 v, mapInsertIfAbsent pn.2 v)) pn0

/-- `DPLLSolver::_init` (SAT.cc lines 33-69) up to, but not including, the root decision
pushes.  Nothing is cleared: `_vars`, `_clause_states` and the occurrence maps are
extended in place and `_model`, `_deltas`, `_assn_stack` are left as they are. -/
def initCore (s : SolverState) (cnf : CNF) : SolverState :=
  let s1 := {s with inst := cnf}
  let vars := buildVars s1.vars s1.inst
  let css := initClauseStates s1.model s1.inst s1.clause_states
  let pn := buildOccMaps vars s1.inst.clauses (s1.pos_map, s1.neg_map)
  {s1 with vars := vars, clause_states := css, pos_map := pn.1, neg_map := pn.2}

/-- `DPLLSolver::_init` (SAT.cc lines 33-77).  The return value of `_chooseVar` is
ignored (SAT.cc line 73); on failure `initial_var` stays uninitialized, modeled by the
`junk` parameter.  The negative literal is pushed first, the positive one second. -/
def init (s : SolverState) (cnf : CNF) (junk : Var) : SolverState :=
  let s1 := initCore s cnf
  let v := (chooseVar s1).getD junk
  {s1 with assn_stack := Lit.mk v false :: Lit.mk v true :: s1.assn_stack}

/-- `DPLLSolver::solve` (SAT.cc lines 14-27): trivial SAT on an empty CNF, immediate
UNSAT when some clause is empty, else initialize and search.  The search fuel
`2 ^ (vars + 2)` dominates the number of loop iterations of any healthy run. -/
def solve (s : SolverState) (cnf : CNF) (junk : Var) : Option (Bool × SolverState) :=
  if cnf.clauses.length = 0 then some (true, s)
  else if cnf.clauses.any (fun c => c.lits.length = 0) then some (false, s)
  else
    let s1 := init s cnf junk
    dpll (2 ^ (s1.vars.length + 2)) s1

/-- `DPLLSolver::getModel` (SAT.cc lines 29-31). -/
def getModel (s : SolverState) : Model := s.model

/-! DIMACS reader, `CNF::fromDIMACS` (SAT.cc lines 377-404).  The input stream is
modeled as the list of its lines, each line a list of characters.  `std::stringstream`
integer extraction skips whitespace, accepts an optional sign and a nonempty digit run,
and fails (failbit) when no digit follows or when the value does not fit in a 32-bit
`int` (the overflow behavior of C++11 `operator>>`). -/

/-- The whitespace set of `isspace` in the default locale. -/
def isSpaceC (c : Char) : Bool :=
  c == ' ' || c == '\t' || c == '\n' || c == '\r' || c == Char.ofNat 11 || c == Char.ofNat 12

/-- Split a leading digit run off a character list. -/
def takeDigits : List Char → (List Char × List Char)
  | [] => ([], [])
  | c :: rest =>
    if c.isDigit then
      let dr := takeDigits rest
      (c :: dr.1, dr.2)
    else ([], c :: rest)

/-- Decimal value of a digit run. -/
def digitsVal (ds : List Char) : Nat :=
  ds.foldl (fun a c => a * 10 + (c.toNat - 48)) 0

/-- One `ss >> val` step for `int val`: `none` models extraction failure. -/
def parseIntToken (cs : List Char) : Option (Int × List Char) :=
  let cs1 := cs.dropWhile isSpaceC
  let signed : Bool × List Char :=
    match cs1 with
    | '-' :: r => (true, r)
    | '+' :: r => (false, r)
    | _ => (false, cs1)
  let dr := takeDigits signed.2
  if dr.1 = [] then none
  else
    let n : Int := if signed.1 then -(digitsVal dr.1 : Int) else (digitsVal dr.1 : Int)
    if n < -2147483648 || n > 2147483647 then none
    else some (n, dr.2)

/-- The clause-reading loop of `fromDIMACS` (SAT.cc lines 392-399): read integers until
extraction fails or a `0` appears; a negative integer yields a negated literal, the
variable being `static_cast<uint32_t>(std::abs(val))` (`Int.natAbs`).  Fueled; each
successful extraction consumes at least one character, so `length + 1` fuel always
suffices. -/
def readClause : Nat → List Char → List Lit → Clause
  | 0, _, acc => ⟨acc⟩
  | fuel+1, cs, acc =>
    match parseIntToken cs with
    | none => ⟨acc⟩
    | some vr =>
      if vr.1 = 0 then ⟨acc⟩
      else readClause fuel vr.2 (acc ++ [⟨vr.1.natAbs, decide (vr.1 < 0)⟩])

/-- The clause produced from one non-comment line. -/
def lineClause (line : List Char) : Clause := readClause (line.length + 1) line []

/-- The `while (std::getline(...))` loop of `fromDIMACS` (SAT.cc lines 381-401): skip
empty lines and lines starting with `c` or `p`; every other line appends exactly one
clause. -/
def fromDIMACSgo : List (List Char) → List Clause → List Clause
  | [], acc => acc
  | line :: rest, acc =>
    match line with
    | [] => fromDIMACSgo rest acc
    | c0 :: _ =>
      if c0 == 'c' || c0 == 'p' then fromDIMACSgo rest acc
      else fromDIMACSgo rest (acc ++ [lineClause line])

/-- `CNF::fromDIMACS` (SAT.cc lines 377-404). -/
def fromDIMACS (lines : List (List Char)) : CNF := ⟨fromDIMACSgo lines []⟩

/-- Characterization helper: the lines that contribute a clause (nonempty, not starting
with `c` or `p`). -/
def keepLine : List Char → Bool
  | [] => false
  | c0 :: _ => !(c0 == 'c' || c0 == 'p')

/-! Proof infrastructure for the backtracking invariant: the relation between the state
at the entry of `_assign` and the state while the frame of that `_assign` is being
filled. -/

/-- The model entry written for a freshly assigned literal:
`_model[lit.var] = !lit.sign` (SAT.cc lines 172, 182, 192). -/
def entryOf (l : Lit) : Var × Bool := (l.var, !l.sign)

/-- Invariant tying the state `s` and frame `fr` being built by `_assign` to the state
`s0` at the entry of `_assign`: all fields other than the model and the clause states
are untouched; the model extends `s0.model` with exactly the principal and forced
entries, all over previously unassigned, pairwise distinct variables; every stored
prior is the entry state of its clause, clause indices are stored at most once, and
clause states outside the stored indices are unchanged. -/
structure FrameInv (s0 s : SolverState) (fr : SolverDelta) : Prop where
  inst_eq : s.inst = s0.inst
  vars_eq : s.vars = s0.vars
  deltas_eq : s.deltas = s0.deltas
  assn_eq : s.assn_stack = s0.assn_stack
  pos_eq : s.pos_map = s0.pos_map
  neg_eq : s.neg_map = s0.neg_map
  model_eq : s.model = (fr.forced.reverse.map entryOf) ++ entryOf fr.principal :: s0.model
  principal_fresh : lookupKey s0.model fr.principal.var = none
  forced_fresh : ∀ l ∈ fr.forced, lookupKey s0.model l.var = none
  vars_nodup : (fr.principal.var :: fr.forced.map Lit.var).Nodup
  cs_len : s.clause_states.length = s0.clause_states.length
  priors_val : ∀ p ∈ fr.priors, p.2 = s0.clause_states.getD p.1 csDefault
  cs_out : ∀ j, j ∉ fr.priors.map Prod.fst →
    s.clause_states.getD j csDefault = s0.clause_states.getD j csDefault
  priors_nodup : (fr.priors.map Prod.fst).Nodup

/-! Concrete inputs used by the claim theorems and witnesses below. -/

/-- The CNF (¬x1 ∨ ¬x1) ∧ (x1): unsatisfiable, with a duplicated negative literal. -/
def cnfDupNegUnsat : CNF := ⟨[⟨[⟨1, true⟩, ⟨1, true⟩]⟩, ⟨[⟨1, false⟩]⟩]⟩

/-- The CNF (¬x1 ∨ ¬x1): satisfiable only by x1 := false. -/
def cnfDupNeg : CNF := ⟨[⟨[⟨1, true⟩, ⟨1, true⟩]⟩]⟩

/-- The CNF (x1): a single positive unit clause. -/
def cnfUnit : CNF := ⟨[⟨[⟨1, false⟩]⟩]⟩

/-- The solver state left behind by `solve` on `cnfUnit` from a fresh solver. -/
def afterFirstSolve : SolverState :=
  ((solve initialState cnfUnit 0).getD (false, initialState)).2

/-- A mid-search state over the CNF (¬x1 ∨ x2): clause 0 is inactive (already
satisfied in an enclosing frame) and literal x1 has just been assigned true. -/
def sInactiveNeg : SolverState :=
  { inst := ⟨[⟨[⟨1, true⟩, ⟨2, false⟩]⟩]⟩
    model := [(1, true)]
    vars := [1, 2]
    clause_states := [⟨some ⟨1, true⟩, some ⟨2, false⟩, false⟩]
    deltas := []
    assn_stack := []
    pos_map := [(1, []), (2, [0])]
    neg_map := [(1, [0]), (2, [])] }

/-- A mid-search state over the CNF (¬x1) ∧ (¬x1 ∨ x2): both clauses active, literal x1
just assigned true, so propagating it makes clause 0 empty. -/
def sConflictStop : SolverState :=
  { inst := ⟨[⟨[⟨1, true⟩]⟩, ⟨[⟨1, true⟩, ⟨2, false⟩]⟩]⟩
    model := [(1, true)]
    vars := [1, 2]
    clause_states := [⟨some ⟨1, true⟩, none, true⟩, ⟨some ⟨1, true⟩, some ⟨2, false⟩, true⟩]
    deltas := []
    assn_stack := []
    pos_map := [(1, []), (2, [1])]
    neg_map := [(1, [0, 1]), (2, [])] }

/-- An empty frame for a propagation of the positive literal of x1. -/
def frameIn : SolverDelta := ⟨[], ⟨1, false⟩, []⟩

/-- The CNF (x1 ∨ x2) ∧ (¬x1 ∨ ¬x2). -/
def cnfPair : CNF := ⟨[⟨[⟨1, false⟩, ⟨2, false⟩]⟩, ⟨[⟨1, true⟩, ⟨2, true⟩]⟩]⟩

/-- The initialized solver state on `cnfPair`. -/
def sPair : SolverState := init initialState cnfPair 0

/-- The state after assigning the positive literal of x1 on `sPair`. -/
def saPair : SolverState := (assign sPair ⟨1, false⟩).getD initialState

/-- The CNF (x1 ∨ x2) ∧ (x3 ∨ x4) ∧ (¬x3 ∨ ¬x4): the first decision neither finishes
nor conflicts, so the search reaches a branching point. -/
def cnfBranch : CNF :=
  ⟨[⟨[⟨1, false⟩, ⟨2, false⟩]⟩, ⟨[⟨3, false⟩, ⟨4, false⟩]⟩, ⟨[⟨3, true⟩, ⟨4, true⟩]⟩]⟩

/-- The initialized solver state on `cnfBranch`. -/
def sBranch : SolverState := init initialState cnfBranch 0

/-- The state produced by assigning the first pending decision on `sBranch`. -/
def saBranch : SolverState := (assign sBranch ⟨1, false⟩).getD initialState

/-- Lines of a small DIMACS input: a comment, a clause line and a junk line. -/
def dimacsLines : List (List Char) := [['c'], ['1', ' ', '0'], ['x']]

end ccsat

namespace ccsat

/-! Theorems settling the claims. -/

/-- C1 (code bug): `solve` on a fresh solver returns true for the unsatisfiable CNF
(¬x1 ∨ ¬x1) ∧ (x1), although both total assignments of its only variable x1 falsify it.
The duplicated negative literal makes `_init` record clause 0 in `_pos_map[1]`
(the `else if` at SAT.cc line 62), so assigning x1 := true wrongly deactivates clause 0
as satisfied and the solver reports SAT. -/
theorem C1_solve_true_on_unsat :
    (solve initialState cnfDupNegUnsat 0).map Prod.fst = some true ∧
    CNF.eval cnfDupNegUnsat [(1, true)] = some false ∧
    CNF.eval cnfDupNegUnsat [(1, false)] = some false :=
  ⟨rfl, rfl, rfl⟩

/-- C2 (code bug): on the satisfiable CNF (¬x1 ∨ ¬x1), `solve` returns true but the
model returned by `getModel` assigns x1 := true, under which the CNF evaluates to
false. -/
theorem C2_model_invalid :
    (solve initialState cnfDupNeg 0).map (fun r => (r.1, getModel r.2)) =
      some (true, [(1, true)]) ∧
    CNF.eval cnfDupNeg [(1, true)] = some false :=
  ⟨rfl, rfl⟩

/-- C3 (code bug): after initialization on (¬x1 ∨ ¬x1), the positive occurrence map
lists clause 0 for x1 even though no literal of clause 0 is positive: the second
occurrence of ¬x1 falls through the `else if` of SAT.cc lines 59-65 into the
positive-map branch. -/
theorem C3_pos_map_wrong :
    (initCore initialState cnfDupNeg).pos_map = [(1, [0])] ∧
    cnfDupNeg.clauses = [⟨[⟨1, true⟩, ⟨1, true⟩]⟩] ∧
    (⟨[⟨1, true⟩, ⟨1, true⟩]⟩ : Clause).lits.all (fun l => l.sign) = true :=
  ⟨rfl, rfl, rfl⟩

/-- C5 (code bug): `_init` does not reset the solver state.  After a first successful
`solve` on (x1), the model still contains x1; a second `_init` on the same CNF keeps
that model, appends a second (degenerate, watcher-free but active) clause state next to
the stale one, and its `_chooseVar` call fails, so the root decision variable is read
from uninitialized memory. -/
theorem C5_init_does_not_reset :
    solve initialState cnfUnit 0 = some (true, afterFirstSolve) ∧
    afterFirstSolve.model = [(1, true)] ∧
    (initCore afterFirstSolve cnfUnit).model = [(1, true)] ∧
    (initCore afterFirstSolve cnfUnit).clause_states.length = 2 ∧
    (initCore afterFirstSolve cnfUnit).clause_states.getD 1 csDefault = ⟨none, none, true⟩ ∧
    chooseVar (initCore afterFirstSolve cnfUnit) = none :=
  ⟨rfl, rfl, rfl, rfl, rfl, rfl⟩

/-- C7 (counterexample): propagating the positive literal of x1 through `sInactiveNeg`,
whose only clause is in the negative-occurrence list of x1 and is inactive, stores that
clause's prior state into the frame and rewrites its first watcher: inactive clauses in
the negative-occurrence list are not left untouched. -/
theorem C7_inactive_clause_touched :
    (getCS sInactiveNeg 0).active = false ∧
    (unitPropagate sInactiveNeg ⟨1, false⟩ frameIn).2.priors =
      [(0, ⟨some ⟨1, true⟩, some ⟨2, false⟩, false⟩)] ∧
    (unitPropagate sInactiveNeg ⟨1, false⟩ frameIn).1.clause_states =
      [⟨none, some ⟨2, false⟩, false⟩] :=
  ⟨rfl, rfl, rfl⟩

/-- C8 (code bug): propagating the positive literal of x1 through `sConflictStop`
makes clause 0 (the first entry of the negative-occurrence list) empty, yet clause 1,
which comes later in the same list, is still processed: its prior is stored and its
first watcher is rewritten.  The propagator does not stop at the conflict. -/
theorem C8_propagation_continues_after_conflict :
    negIndicesOf sConflictStop ⟨1, false⟩ = [0, 1] ∧
    (unitPropagate sConflictStop ⟨1, false⟩ frameIn).1.clause_states.getD 0 csDefault =
      ⟨none, none, true⟩ ∧
    hasEmpty (unitPropagate sConflictStop ⟨1, false⟩ frameIn).1 = true ∧
    (unitPropagate sConflictStop ⟨1, false⟩ frameIn).2.priors.map Prod.fst = [0, 1] ∧
    (unitPropagate sConflictStop ⟨1, false⟩ frameIn).1.clause_states.getD 1 csDefault =
      ⟨none, some ⟨2, false⟩, true⟩ :=
  ⟨rfl, rfl, rfl, rfl, rfl⟩

/-- C9 (counterexample): after initialization on the CNF (x1), the top of the
pending-decision stack is the positive literal of x1 (`sign = false`), not the
negative one: `_init` pushes `{v, true}` (negative) first and `{v, false}` (positive)
second, so the positive decision is assigned first. -/
theorem C9_positive_on_top :
    (init initialState cnfUnit 0).assn_stack = [⟨1, false⟩, ⟨1, true⟩] ∧
    ((init initialState cnfUnit 0).assn_stack.head?.map Lit.sign) = some false :=
  ⟨rfl, rfl⟩

/-- C4 (counterexample): evaluating the clause (x1) under the empty model does not
return false: `Lit::eval` calls `m.at(var)` on the unassigned variable x1 and throws
`std::out_of_range` (modeled by `none`) instead of skipping the literal. -/
theorem C4_eval_fails_on_partial_model :
    Clause.eval ⟨[⟨1, false⟩]⟩ [] = none :=
  rfl

end ccsat

namespace ccsat

/-! Helper lemmas. -/

/-- Clause evaluation over literals that are all assigned returns normally. -/
theorem evalGo_total (m : Model) (ls : List Lit)
    (h : ls.all (fun l => isAssigned m l.var) = true) :
    Clause.evalGo m ls = some (ls.any (fun l => Lit.eval l m == some true)) := by
  induction ls with
  | nil => rfl
  | cons l rest ih =>
    rw [List.all_cons, Bool.and_eq_true] at h
    obtain ⟨h1, h2⟩ := h
    obtain ⟨b, hb⟩ : ∃ b, lookupKey m l.var = some b := by
      cases hv : lookupKey m l.var
      · rw [isAssigned, hv] at h1; cases h1
      · exact ⟨_, rfl⟩
    have hev : Lit.eval l m = some (Bool.xor l.sign b) := by
      rw [Lit.eval, hb]; rfl
    cases hx : Bool.xor l.sign b with
    | true =>
      rw [Clause.evalGo, hev, hx, List.any_cons, hev, hx]
      rfl
    | false =>
      rw [Clause.evalGo, hev, hx, List.any_cons, hev, hx, ih h2]
      rfl

/-- C4 (amended): `Clause::eval` under a model that assigns every variable of the clause
returns normally, with value true iff some literal of the clause evaluates to true.
(Under a partial model the evaluation instead throws as soon as it reaches a literal
over an unassigned variable before finding a true one.) -/
theorem C4_eval_total_model (c : Clause) (m : Model)
    (h : c.lits.all (fun l => isAssigned m l.var) = true) :
    Clause.eval c m = some (c.lits.any (fun l => Lit.eval l m == some true)) :=
  evalGo_total m c.lits h

/-- Witness for C4_eval_total_model at the clause (¬x1 ∨ x2) and the total model
x1 := true, x2 := true. -/
theorem C4_eval_total_model_witness :
    (⟨[⟨1, true⟩, ⟨2, false⟩]⟩ : Clause).lits.all
        (fun l => isAssigned [(1, true), (2, true)] l.var) = true ∧
    Clause.eval ⟨[⟨1, true⟩, ⟨2, false⟩]⟩ [(1, true), (2, true)] =
      some ((⟨[⟨1, true⟩, ⟨2, false⟩]⟩ : Clause).lits.any
        (fun l => Lit.eval l [(1, true), (2, true)] == some true)) :=
  ⟨by decide, C4_eval_total_model ⟨[⟨1, true⟩, ⟨2, false⟩]⟩ [(1, true), (2, true)] (by decide)⟩

/-- The getline loop accumulates exactly one clause per kept line. -/
theorem fromDIMACSgo_characterization (lines : List (List Char)) (acc : List Clause) :
    fromDIMACSgo lines acc = acc ++ (lines.filter keepLine).map lineClause := by
  induction lines generalizing acc with
  | nil => simp [fromDIMACSgo]
  | cons line rest ih =>
    cases line with
    | nil => simp [fromDIMACSgo, keepLine, ih]
    | cons c0 cs =>
      by_cases h : (c0 == 'c' || c0 == 'p') = true
      · simp [fromDIMACSgo, keepLine, h, ih]
      · simp only [fromDIMACSgo, keepLine, h, ih, Bool.not_false, List.filter_cons,
          List.map_cons, eq_self_iff_true, if_true]
        rw [List.append_assoc]
        rfl

/-- C10: the DIMACS reader is total; every nonempty line not starting with `c` or `p`
contributes exactly one clause (holding the integers read before the first `0` or the
first failed extraction); a line whose first token is not an integer contributes an
empty clause; and `solve` answers UNSAT immediately on any CNF containing an empty
clause. -/
theorem C10_fromDIMACS_behavior :
    (∀ lines, (fromDIMACS lines).clauses = (lines.filter keepLine).map lineClause) ∧
    (∀ line, parseIntToken line = none → lineClause line = ⟨[]⟩) ∧
    (∀ (s : SolverState) (cnf : CNF) (junk : Var),
      cnf.clauses.any (fun c => c.lits.length = 0) = true →
      solve s cnf junk = some (false, s)) := by
  refine ⟨?_, ?_, ?_⟩
  · intro lines
    show fromDIMACSgo lines [] = _
    rw [fromDIMACSgo_characterization]
    rfl
  · intro line h
    show readClause (line.length + 1) line [] = ⟨[]⟩
    rw [readClause, h]
  · intro s cnf junk h
    have hne : cnf.clauses.length ≠ 0 := by
      intro e
      rw [List.length_eq_zero] at e
      rw [e] at h
      cases h
    rw [solve, if_neg hne, if_pos h]

/-- Witness for C10_fromDIMACS_behavior on a comment line, a clause line `1 0`, a junk
line `x`, and the CNF consisting of one empty clause. -/
theorem C10_fromDIMACS_behavior_witness :
    (fromDIMACS dimacsLines).clauses = [⟨[⟨1, false⟩]⟩, ⟨[]⟩] ∧
    parseIntToken ['x'] = none ∧
    lineClause ['x'] = ⟨[]⟩ ∧
    solve initialState ⟨[⟨[]⟩]⟩ 0 = some (false, initialState) := by
  refine ⟨?_, by decide, C10_fromDIMACS_behavior.2.1 ['x'] (by decide),
    C10_fromDIMACS_behavior.2.2 initialState ⟨[⟨[]⟩]⟩ 0 (by decide)⟩
  rw [C10_fromDIMACS_behavior.1 dimacsLines]
  decide

/-- Storing a pair puts its clause index into the stored indices. -/
theorem store_fst_mem (d : SolverDelta) (p : Nat × ClauseState) :
    p.1 ∈ (d.store p).priors.map Prod.fst := by
  rw [SolverDelta.store]
  by_cases h : d.priors.any (fun st => st.1 == p.1) = true
  · rw [if_pos h]
    obtain ⟨st, hst, he⟩ := List.any_eq_true.mp h
    exact List.mem_map.mpr ⟨st, hst, eq_of_beq he⟩
  · rw [if_neg h]
    simp

/-- Storing never removes a stored index. -/
theorem store_fst_mono (d : SolverDelta) (p : Nat × ClauseState) (j : Nat)
    (h : j ∈ d.priors.map Prod.fst) : j ∈ (d.store p).priors.map Prod.fst := by
  rw [SolverDelta.store]
  by_cases hc : d.priors.any (fun st => st.1 == p.1) = true
  · rw [if_pos hc]; exact h
  · rw [if_neg hc]; simp only [List.map_append, List.mem_append]; exact Or.inl h

/-- The second loop of `_unitPropagate` replaces the frame by a store of the current
clause state in every branch. -/
theorem watchStep_snd (negated : Lit) (acc : SolverState × SolverDelta) (i : Nat) :
    (watchStep negated acc i).2 = acc.2.store (i, getCS acc.1 i) := by
  rw [watchStep]
  split
  · rfl
  · split
    · rfl
    · rfl

/-- Folding a priors-monotone step keeps stored indices stored. -/
theorem foldl_priors_mono (g : SolverState × SolverDelta → Nat → SolverState × SolverDelta)
    (hg : ∀ acc i j, j ∈ acc.2.priors.map Prod.fst → j ∈ (g acc i).2.priors.map Prod.fst)
    (l : List Nat) (acc : SolverState × SolverDelta) (j : Nat)
    (h : j ∈ acc.2.priors.map Prod.fst) :
    j ∈ (l.foldl g acc).2.priors.map Prod.fst := by
  induction l generalizing acc with
  | nil => exact h
  | cons i rest ih => exact ih (g acc i) (hg acc i j h)

/-- Folding a step that stores its own index stores every index of the list. -/
theorem foldl_priors_self (g : SolverState × SolverDelta → Nat → SolverState × SolverDelta)
    (hgmono : ∀ acc i j, j ∈ acc.2.priors.map Prod.fst → j ∈ (g acc i).2.priors.map Prod.fst)
    (hgself : ∀ acc i, i ∈ (g acc i).2.priors.map Prod.fst)
    (l : List Nat) (acc : SolverState × SolverDelta) (i : Nat) (hi : i ∈ l) :
    i ∈ (l.foldl g acc).2.priors.map Prod.fst := by
  induction l generalizing acc with
  | nil => cases hi
  | cons a rest ih =>
    rcases List.mem_cons.mp hi with h | h
    · subst h
      exact foldl_priors_mono g hgmono rest (g acc i) i (hgself acc i)
    · exact ih (g acc a) h

/-- C7 (amended): during propagation of a literal, EVERY clause index in the
negative-occurrence list ends up recorded in the frame's priors (subject to the
oldest-wins deduplication), whether or not the clause is active; the activity check
guards only the positive-occurrence (satisfied) side. -/
theorem C7_neg_priors_always_stored (s : SolverState) (lit : Lit) (fr : SolverDelta)
    (i : Nat) (hi : i ∈ negIndicesOf s lit) :
    i ∈ ((unitPropagate s lit fr).2.priors.map Prod.fst) := by
  rw [unitPropagate]
  exact foldl_priors_self (watchStep lit.negate)
    (fun acc j k hk => by rw [watchStep_snd]; exact store_fst_mono _ _ _ hk)
    (fun acc j => by rw [watchStep_snd]; exact store_fst_mem _ _)
    (negIndicesOf s lit) _ i hi

/-- Witness for C7_neg_priors_always_stored at the state `sInactiveNeg`, whose only
clause is inactive and in the negative-occurrence list of the propagated literal. -/
theorem C7_neg_priors_always_stored_witness :
    0 ∈ negIndicesOf sInactiveNeg ⟨1, false⟩ ∧
    0 ∈ ((unitPropagate sInactiveNeg ⟨1, false⟩ frameIn).2.priors.map Prod.fst) :=
  ⟨by decide, C7_neg_priors_always_stored sInactiveNeg ⟨1, false⟩ frameIn 0 (by decide)⟩

end ccsat

namespace ccsat

/-- C9 (amended): at initialization and at every branching point of the search loop the
solver pushes the chosen variable's NEGATIVE decision first and its POSITIVE decision
second, so the positive-polarity decision is on top of the pending-decision stack and
is assigned first. -/
theorem C9_push_order :
    (∀ (s : SolverState) (cnf : CNF) (junk : Var) (v : Var),
      chooseVar (initCore s cnf) = some v →
      (init s cnf junk).assn_stack = ⟨v, false⟩ :: ⟨v, true⟩ :: s.assn_stack) ∧
    (∀ (fuel : Nat) (s : SolverState) (top : Lit) (rest : List Lit)
      (sa0 : SolverState) (v : Var),
      s.assn_stack = top :: rest →
      assign s top = some sa0 →
      allInactive {sa0 with assn_stack := rest} = false →
      hasEmpty {sa0 with assn_stack := rest} = false →
      complete {sa0 with assn_stack := rest} = false →
      chooseVar {sa0 with assn_stack := rest} = some v →
      dpll (fuel+1) s =
        dpll fuel {sa0 with assn_stack := ⟨v, false⟩ :: ⟨v, true⟩ :: rest}) := by
  constructor
  · intro s cnf junk v h
    simp only [init, h, Option.getD_some]
    rfl
  · intro fuel s top rest sa0 v hstack hassign h1 h2 h3 h4
    rw [dpll, hstack]
    show (match assign s top with
      | none => none
      | some sa0 =>
        let sa := {sa0 with assn_stack := rest}
        if allInactive sa then some (true, completeModel sa)
        else if hasEmpty sa then
          match backtrack sa with
          | none => none
          | some r => if r.1 then dpll fuel r.2 else some (false, r.2)
        else if complete sa then
          match CNF.eval sa.inst sa.model with
          | none => none
          | some true => some (true, sa)
          | some false =>
            match backtrack sa with
            | none => none
            | some r => if r.1 then dpll fuel r.2 else some (false, r.2)
        else
          match chooseVar sa with
          | none => some (false, sa)
          | some v => dpll fuel {sa with assn_stack := Lit.mk v false :: Lit.mk v true :: rest})
      = dpll fuel {sa0 with assn_stack := ⟨v, false⟩ :: ⟨v, true⟩ :: rest}
    rw [hassign]
    show (if allInactive {sa0 with assn_stack := rest} then _ else _) = _
    rw [h1, h2, h3, h4]
    rfl

/-- Witness for C9_push_order: on `cnfBranch` the root pushes put the positive literal
of x1 on top, and after assigning it the search branches on x2, pushing its negative
literal first and its positive literal on top. -/
theorem C9_push_order_witness :
    (init initialState cnfBranch 0).assn_stack = [⟨1, false⟩, ⟨1, true⟩] ∧
    dpll 8 sBranch = dpll 7 {saBranch with assn_stack := [⟨2, false⟩, ⟨2, true⟩, ⟨1, true⟩]} :=
  ⟨C9_push_order.1 initialState cnfBranch 0 1 (by decide),
   C9_push_order.2 7 sBranch ⟨1, false⟩ [⟨1, true⟩] saBranch 2 (by decide) (by decide)
     (by decide) (by decide) (by decide) (by decide)⟩

end ccsat

namespace ccsat

/-! List and association-list lemmas for the backtracking proof. -/

/-- Setting one index leaves every other index unchanged. -/
theorem listGetD_set_ne {α : Type} (l : List α) (i j : Nat) (x d : α) (h : i ≠ j) :
    (l.set i x).getD j d = l.getD j d := by
  induction l generalizing i j with
  | nil => rfl
  | cons a t ih =>
    cases i with
    | zero =>
      cases j with
      | zero => exact absurd rfl h
      | succ j => rfl
    | succ i =>
      cases j with
      | zero => rfl
      | succ j => exact ih i j (fun e => h (by rw [e]))

/-- Setting an in-range index stores the value there. -/
theorem listGetD_set_self {α : Type} (l : List α) (i : Nat) (x d : α) (h : i < l.length) :
    (l.set i x).getD i d = x := by
  induction l generalizing i with
  | nil => cases h
  | cons a t ih =>
    cases i with
    | zero => rfl
    | succ i => exact ih i (Nat.lt_of_succ_lt_succ h)

/-- Setting an out-of-range index is a no-op (the C++ counterpart would be UB, but such
indices never reach a write on healthy states). -/
theorem listSet_oob {α : Type} (l : List α) (i : Nat) (x : α) (h : l.length ≤ i) :
    l.set i x = l := by
  induction l generalizing i with
  | nil => rfl
  | cons a t ih =>
    cases i with
    | zero => exact absurd h (Nat.not_succ_le_zero _)
    | succ i =>
      show a :: t.set i x = a :: t
      rw [ih i (Nat.le_of_succ_le_succ h)]

/-- Reading an out-of-range index yields the default. -/
theorem listGetD_oob {α : Type} (l : List α) (i : Nat) (d : α) (h : l.length ≤ i) :
    l.getD i d = d := by
  induction l generalizing i with
  | nil => cases i <;> rfl
  | cons a t ih =>
    cases i with
    | zero => exact absurd h (Nat.not_succ_le_zero _)
    | succ i => exact ih i (Nat.le_of_succ_le_succ h)

/-- Two lists of the same length agreeing on every `getD` are equal. -/
theorem listEq_of_getD {α : Type} (l1 l2 : List α) (d : α) (hlen : l1.length = l2.length)
    (h : ∀ j, l1.getD j d = l2.getD j d) : l1 = l2 := by
  induction l1 generalizing l2 with
  | nil =>
    cases l2 with
    | nil => rfl
    | cons b t => cases hlen
  | cons a t ih =>
    cases l2 with
    | nil => cases hlen
    | cons b t2 =>
      have h0 : a = b := h 0
      have ht : t = t2 := ih t2 (Nat.succ_injective hlen) (fun j => h (j + 1))
      rw [h0, ht]

/-- Lookup over a concatenation is none iff it is none on both parts. -/
theorem lookupKey_append_none {α : Type} (l1 l2 : List (Var × α)) (v : Var) :
    lookupKey (l1 ++ l2) v = none ↔ lookupKey l1 v = none ∧ lookupKey l2 v = none := by
  induction l1 with
  | nil => simp [lookupKey]
  | cons p t ih =>
    by_cases h : p.1 = v <;> simp [lookupKey, h, ih]

/-- Lookup on a cons is none iff the head key differs and the tail lookup is none. -/
theorem lookupKey_cons_none {α : Type} (q : Var × α) (m : List (Var × α)) (v : Var) :
    lookupKey (q :: m) v = none ↔ q.1 ≠ v ∧ lookupKey m v = none := by
  by_cases h : q.1 = v <;> simp [lookupKey, h]

/-- Lookup over model entries built from literals is none iff the variable is not among
the literals' variables. -/
theorem lookupKey_entries_none (ls : List Lit) (v : Var) :
    lookupKey (ls.map entryOf) v = none ↔ v ∉ ls.map Lit.var := by
  induction ls with
  | nil => simp [lookupKey]
  | cons l t ih =>
    rw [List.map_cons, lookupKey_cons_none, List.map_cons, List.mem_cons, ih]
    constructor
    · rintro ⟨h1, h2⟩ (h | h)
      · exact h1 h.symm
      · exact h2 h
    · intro h
      exact ⟨fun e => h (Or.inl e.symm), fun hm => h (Or.inr hm)⟩

/-- Erasing a key that is absent is a no-op. -/
theorem eraseKey_of_lookup_none (m : Model) (v : Var) (h : lookupKey m v = none) :
    eraseKey m v = m := by
  induction m with
  | nil => rfl
  | cons p t ih =>
    obtain ⟨hp, ht⟩ := (lookupKey_cons_none p t v).mp h
    show List.filter _ (p :: t) = p :: t
    rw [List.filter_cons]
    have hb : (!(p.1 == v)) = true := by simp [hp]
    rw [if_pos hb]
    show p :: eraseKey t v = p :: t
    rw [ih ht]

/-- Erase distributes over concatenation. -/
theorem eraseKey_append (m1 m2 : Model) (v : Var) :
    eraseKey (m1 ++ m2) v = eraseKey m1 v ++ eraseKey m2 v :=
  List.filter_append m1 m2

/-- Erasing the key of the head entry drops it. -/
theorem eraseKey_cons_self (m : Model) (v : Var) (b : Bool) :
    eraseKey ((v, b) :: m) v = eraseKey m v := by
  show List.filter _ ((v, b) :: m) = _
  rw [List.filter_cons]
  have hb : (!((v, b).1 == v)) = false := by simp
  rw [hb]
  rfl

end ccsat

namespace ccsat

/-- Erasing the forced variables, in order, from the model entries they contributed
(newest first) on top of a base in which they do not occur recovers the base. -/
theorem erase_forced (forced : List Lit) (base : Model)
    (hf : ∀ l ∈ forced, lookupKey base l.var = none)
    (hnd : (forced.map Lit.var).Nodup) :
    forced.foldl (fun m l => eraseKey m l.var) ((forced.reverse.map entryOf) ++ base)
      = base := by
  induction forced with
  | nil => rfl
  | cons u rest ih =>
    rw [List.foldl_cons]
    have hnotmem : u.var ∉ rest.map Lit.var := (List.nodup_cons.mp hnd).1
    have hrw : eraseKey (((u :: rest).reverse.map entryOf) ++ base) u.var
        = (rest.reverse.map entryOf) ++ base := by
      rw [List.reverse_cons, List.map_append, List.append_assoc, eraseKey_append]
      have h1 : eraseKey (rest.reverse.map entryOf) u.var = rest.reverse.map entryOf := by
        apply eraseKey_of_lookup_none
        rw [lookupKey_entries_none]
        intro hm
        apply hnotmem
        rw [List.map_reverse, List.mem_reverse] at hm
        exact hm
      have h2 : eraseKey (([u].map entryOf) ++ base) u.var = base := by
        show eraseKey (entryOf u :: base) u.var = base
        have : entryOf u = (u.var, !u.sign) := rfl
        rw [this, eraseKey_cons_self, eraseKey_of_lookup_none base u.var (hf u (by simp))]
      rw [h1, h2]
    rw [hrw]
    exact ih (fun l hl => hf l (List.mem_cons_of_mem u hl)) (List.nodup_cons.mp hnd).2

/-- Undoing the model of a frame built over `base` recovers `base` exactly. -/
theorem undo_model_restore (p : Lit) (forced : List Lit) (base : Model)
    (hp : lookupKey base p.var = none)
    (hf : ∀ l ∈ forced, lookupKey base l.var = none)
    (hnd : (p.var :: forced.map Lit.var).Nodup) :
    forced.foldl (fun m l => eraseKey m l.var)
      (eraseKey ((forced.reverse.map entryOf) ++ entryOf p :: base) p.var) = base := by
  obtain ⟨hpm, hnd2⟩ := List.nodup_cons.mp hnd
  have h1 : eraseKey ((forced.reverse.map entryOf) ++ entryOf p :: base) p.var
      = (forced.reverse.map entryOf) ++ base := by
    rw [eraseKey_append]
    have ha : eraseKey (forced.reverse.map entryOf) p.var = forced.reverse.map entryOf := by
      apply eraseKey_of_lookup_none
      rw [lookupKey_entries_none]
      intro hm
      apply hpm
      rw [List.map_reverse, List.mem_reverse] at hm
      exact hm
    have hb : eraseKey (entryOf p :: base) p.var = base := by
      have : entryOf p = (p.var, !p.sign) := rfl
      rw [this, eraseKey_cons_self, eraseKey_of_lookup_none base p.var hp]
    rw [ha, hb]
  rw [h1]
  exact erase_forced forced base hf hnd2

/-- Writing the stored priors back restores the original clause-state table. -/
theorem restore_priors (orig : List ClauseState) (priors : List (Nat × ClauseState))
    (cur : List ClauseState)
    (hlen : cur.length = orig.length)
    (hval : ∀ p ∈ priors, p.2 = orig.getD p.1 csDefault)
    (hout : ∀ j, j ∉ priors.map Prod.fst → cur.getD j csDefault = orig.getD j csDefault)
    (hnd : (priors.map Prod.fst).Nodup) :
    priors.foldl (fun cs p => cs.set p.1 p.2) cur = orig := by
  induction priors generalizing cur with
  | nil => exact listEq_of_getD cur orig csDefault hlen (fun j => hout j (by simp))
  | cons q rest ih =>
    rw [List.foldl_cons]
    have hnd1 : (q.1 :: rest.map Prod.fst).Nodup := by
      rw [List.map_cons] at hnd
      exact hnd
    obtain ⟨hqm, hnd2⟩ := List.nodup_cons.mp hnd1
    apply ih (cur.set q.1 q.2)
    · rw [List.length_set]; exact hlen
    · exact fun p hp => hval p (List.mem_cons_of_mem q hp)
    · intro j hj
      by_cases hji : j = q.1
      · rw [hji]
        by_cases hlt : q.1 < cur.length
        · rw [listGetD_set_self cur q.1 q.2 csDefault hlt]
          exact hval q (List.mem_cons_self q rest)
        · have hge : cur.length ≤ q.1 := Nat.le_of_not_lt hlt
          rw [listSet_oob cur q.1 q.2 hge]
          rw [listGetD_oob cur q.1 csDefault hge]
          rw [listGetD_oob orig q.1 csDefault (by rw [← hlen]; exact hge)]
      · rw [listGetD_set_ne cur q.1 j q.2 csDefault (fun e => hji e.symm)]
        apply hout j
        intro hm
        rw [List.map_cons, List.mem_cons] at hm
        rcases hm with h | h
        · exact hji h
        · exact hj h
    · exact hnd2

end ccsat

namespace ccsat

/-- Storing either leaves the priors unchanged or appends a pair whose index was
absent. -/
theorem store_priors_eq (d : SolverDelta) (p : Nat × ClauseState) :
    (d.store p).priors = d.priors ∨
    ((d.store p).priors = d.priors ++ [p] ∧ p.1 ∉ d.priors.map Prod.fst) := by
  rw [SolverDelta.store]
  by_cases h : d.priors.any (fun st => st.1 == p.1) = true
  · left; rw [if_pos h]
  · right
    refine ⟨by rw [if_neg h], ?_⟩
    intro hm
    apply h
    obtain ⟨q, hq, he⟩ := List.mem_map.mp hm
    exact List.any_eq_true.mpr ⟨q, hq, by rw [he]; exact beq_self_eq_true p.1⟩

/-- Storing does not change the forced list. -/
theorem store_forced (d : SolverDelta) (p : Nat × ClauseState) :
    (d.store p).forced = d.forced := by
  rw [SolverDelta.store]; split <;> rfl

/-- Storing does not change the principal. -/
theorem store_principal (d : SolverDelta) (p : Nat × ClauseState) :
    (d.store p).principal = d.principal := by
  rw [SolverDelta.store]; split <;> rfl

/-- Storing the current state of a clause preserves the frame invariant. -/
theorem FrameInv_store (s0 s : SolverState) (fr : SolverDelta) (i : Nat)
    (hinv : FrameInv s0 s fr) : FrameInv s0 s (fr.store (i, getCS s i)) := by
  obtain ⟨e1, e2, e3, e4, e5, e6, e7, e8, e9, e10, e11, e12, e13, e14⟩ := hinv
  have hm : s.model =
      ((fr.store (i, getCS s i)).forced.reverse.map entryOf) ++
        entryOf (fr.store (i, getCS s i)).principal :: s0.model := by
    rw [store_forced, store_principal]; exact e7
  have hfr : ∀ l ∈ (fr.store (i, getCS s i)).forced, lookupKey s0.model l.var = none := by
    rw [store_forced]; exact e9
  have hnd : ((fr.store (i, getCS s i)).principal.var ::
      (fr.store (i, getCS s i)).forced.map Lit.var).Nodup := by
    rw [store_forced, store_principal]; exact e10
  have hfresh : lookupKey s0.model (fr.store (i, getCS s i)).principal.var = none := by
    rw [store_principal]; exact e8
  rcases store_priors_eq fr (i, getCS s i) with hp | ⟨hp, hni⟩
  · exact ⟨e1, e2, e3, e4, e5, e6, hm, hfresh, hfr, hnd, e11,
      by rw [hp]; exact e12, by rw [hp]; exact e13, by rw [hp]; exact e14⟩
  · refine ⟨e1, e2, e3, e4, e5, e6, hm, hfresh, hfr, hnd, e11, ?_, ?_, ?_⟩
    · intro p hp2
      rw [hp] at hp2
      rcases List.mem_append.mp hp2 with h | h
      · exact e12 p h
      · have : p = (i, getCS s i) := by simpa using h
        rw [this]
        show getCS s i = s0.clause_states.getD i csDefault
        rw [getCS, e13 i hni]
    · intro j hj
      rw [hp] at hj
      apply e13 j
      intro hjm
      apply hj
      rw [List.map_append, List.mem_append]
      exact Or.inl hjm
    · rw [hp, List.map_append]
      rw [List.nodup_append]
      exact ⟨e14, List.nodup_singleton _, by
        intro a ha hb
        have : a = i := by simpa using hb
        rw [this] at ha
        exact hni ha⟩

/-- Overwriting a clause whose index is already stored preserves the frame invariant. -/
theorem FrameInv_setCS (s0 s : SolverState) (fr : SolverDelta) (i : Nat) (x : ClauseState)
    (hinv : FrameInv s0 s fr) (hi : i ∈ fr.priors.map Prod.fst) :
    FrameInv s0 (setCS s i x) fr := by
  obtain ⟨e1, e2, e3, e4, e5, e6, e7, e8, e9, e10, e11, e12, e13, e14⟩ := hinv
  refine ⟨e1, e2, e3, e4, e5, e6, e7, e8, e9, e10, ?_, e12, ?_, e14⟩
  · show (s.clause_states.set i x).length = _
    rw [List.length_set]; exact e11
  · intro j hj
    have hne : i ≠ j := by
      intro e
      rw [e] at hi
      exact hj hi
    show (s.clause_states.set i x).getD j csDefault = _
    rw [listGetD_set_ne s.clause_states i j x csDefault hne]
    exact e13 j hj

/-- The satisfied-clause step preserves the frame invariant. -/
theorem FrameInv_satStep (s0 : SolverState) (acc : SolverState × SolverDelta) (i : Nat)
    (hinv : FrameInv s0 acc.1 acc.2) :
    FrameInv s0 (satStep acc i).1 (satStep acc i).2 := by
  rw [satStep]
  by_cases h : (getCS acc.1 i).active = true
  · rw [if_pos h]
    exact FrameInv_setCS s0 acc.1 (acc.2.store (i, getCS acc.1 i)) i _
      (FrameInv_store s0 acc.1 acc.2 i hinv) (store_fst_mem acc.2 (i, getCS acc.1 i))
  · rw [if_neg h]
    exact hinv

/-- The watcher-refresh step preserves the frame invariant. -/
theorem FrameInv_watchStep (s0 : SolverState) (negated : Lit)
    (acc : SolverState × SolverDelta) (i : Nat) (hinv : FrameInv s0 acc.1 acc.2) :
    FrameInv s0 (watchStep negated acc i).1 (watchStep negated acc i).2 := by
  have hstore := FrameInv_store s0 acc.1 acc.2 i hinv
  have hmem := store_fst_mem acc.2 (i, getCS acc.1 i)
  rw [watchStep]
  by_cases h1 : (getCS acc.1 i).watchedFst = some negated
  · rw [if_pos h1]
    exact FrameInv_setCS s0 acc.1 _ i _ hstore hmem
  · rw [if_neg h1]
    by_cases h2 : (getCS acc.1 i).watchedSnd = some negated
    · rw [if_pos h2]
      exact FrameInv_setCS s0 acc.1 _ i _ hstore hmem
    · rw [if_neg h2]
      exact hstore

/-- Folding any invariant-preserving step preserves the frame invariant. -/
theorem FrameInv_foldl (s0 : SolverState)
    (g : SolverState × SolverDelta → Nat → SolverState × SolverDelta)
    (hg : ∀ acc i, FrameInv s0 acc.1 acc.2 → FrameInv s0 (g acc i).1 (g acc i).2)
    (l : List Nat) (acc : SolverState × SolverDelta) (hinv : FrameInv s0 acc.1 acc.2) :
    FrameInv s0 (l.foldl g acc).1 (l.foldl g acc).2 := by
  induction l generalizing acc with
  | nil => exact hinv
  | cons a rest ih => exact ih (g acc a) (hg acc a hinv)

/-- Unit propagation preserves the frame invariant. -/
theorem FrameInv_unitPropagate (s0 s : SolverState) (fr : SolverDelta) (lit : Lit)
    (hinv : FrameInv s0 s fr) :
    FrameInv s0 (unitPropagate s lit fr).1 (unitPropagate s lit fr).2 := by
  rw [unitPropagate]
  exact FrameInv_foldl s0 (watchStep lit.negate) (FrameInv_watchStep s0 lit.negate)
    (negIndicesOf s lit) _
    (FrameInv_foldl s0 satStep (FrameInv_satStep s0) (posIndicesOf s lit) (s, fr) hinv)

/-- Pure-literal deactivation preserves the frame invariant. -/
theorem FrameInv_pureAssign (s0 s : SolverState) (fr : SolverDelta) (p : Lit)
    (hinv : FrameInv s0 s fr) :
    FrameInv s0 (pureAssign s p fr).1 (pureAssign s p fr).2 := by
  rw [pureAssign]
  exact FrameInv_foldl s0 satStep (FrameInv_satStep s0) (posIndicesOf s p) (s, fr) hinv

/-- Recording a forced literal over an unassigned variable preserves the frame
invariant. -/
theorem FrameInv_force (s0 s : SolverState) (fr : SolverDelta) (u : Lit)
    (hinv : FrameInv s0 s fr) (hu : isAssigned s.model u.var = false) :
    FrameInv s0 {s with model := (u.var, !u.sign) :: s.model}
      {fr with forced := fr.forced ++ [u]} := by
  obtain ⟨e1, e2, e3, e4, e5, e6, e7, e8, e9, e10, e11, e12, e13, e14⟩ := hinv
  have hnone : lookupKey s.model u.var = none := by
    rw [isAssigned] at hu
    cases h : lookupKey s.model u.var with
    | none => rfl
    | some b => rw [h] at hu; cases hu
  rw [e7, lookupKey_append_none, lookupKey_cons_none] at hnone
  have hfv := hnone.1
  have hpv := hnone.2.1
  have hbase := hnone.2.2
  have hfmem : u.var ∉ fr.forced.map Lit.var := by
    intro hm
    have := (lookupKey_entries_none fr.forced.reverse u.var).mp ?_
    · apply this
      rw [List.map_reverse, List.mem_reverse]
      exact hm
    · exact hfv
  have hppv : fr.principal.var ≠ u.var := by
    intro e
    exact hpv (by rw [entryOf, e])
  refine ⟨e1, e2, e3, e4, e5, e6, ?_, e8, ?_, ?_, e11, e12, e13, e14⟩
  · show (u.var, !u.sign) :: s.model = _
    rw [List.reverse_append, List.reverse_singleton]
    show (u.var, !u.sign) :: s.model = (u :: fr.forced.reverse).map entryOf ++ _
    rw [List.map_cons, List.cons_append]
    rw [e7]
    rfl
  · intro l hl
    rcases List.mem_append.mp hl with h | h
    · exact e9 l h
    · have : l = u := by simpa using h
      rw [this]
      exact hbase
  · show (fr.principal.var :: (fr.forced ++ [u]).map Lit.var).Nodup
    rw [List.map_append]
    show (fr.principal.var :: (fr.forced.map Lit.var ++ [u.var])).Nodup
    rw [← List.cons_append, List.nodup_append]
    refine ⟨e10, List.nodup_singleton _, ?_⟩
    intro a ha hb
    have hau : a = u.var := by simpa using hb
    rw [hau] at ha
    rcases List.mem_cons.mp ha with h | h
    · exact hppv h.symm
    · exact hfmem h

/-- The frame invariant at the start of `_assign`, right after the principal literal is
placed into the model. -/
theorem FrameInv_start (s : SolverState) (lit : Lit)
    (hu : isAssigned s.model lit.var = false) :
    FrameInv s {s with model := (lit.var, !lit.sign) :: s.model} ⟨[], lit, []⟩ := by
  have hnone : lookupKey s.model lit.var = none := by
    rw [isAssigned] at hu
    cases h : lookupKey s.model lit.var with
    | none => rfl
    | some b => rw [h] at hu; cases hu
  refine ⟨rfl, rfl, rfl, rfl, rfl, rfl, rfl, hnone, ?_, ?_, rfl, ?_, fun j hj => rfl, ?_⟩
  · intro l hl; cases hl
  · exact List.nodup_singleton _
  · intro p hp; cases hp
  · exact List.nodup_nil

end ccsat

namespace ccsat

/-- The unit-propagation loop of `_assign` preserves the frame invariant. -/
theorem FrameInv_assignUnits (s0 : SolverState) (fuel : Nat) (s : SolverState)
    (fr : SolverDelta) (r : SolverState × SolverDelta)
    (hinv : FrameInv s0 s fr) (h : assignUnits fuel s fr = some r) :
    FrameInv s0 r.1 r.2 := by
  induction fuel generalizing s fr with
  | zero => cases h
  | succ fuel ih =>
    rw [assignUnits] at h
    cases hu : findUnit s with
    | none =>
      rw [hu] at h
      cases h
      exact hinv
    | some u =>
      rw [hu] at h
      simp only [] at h
      by_cases ha : isAssigned s.model u.var = true
      · rw [if_pos ha] at h
        cases h
      · rw [if_neg ha] at h
        have ha' : isAssigned s.model u.var = false := Bool.eq_false_iff.mpr ha
        have hinv2 := FrameInv_unitPropagate s0
          {s with model := (u.var, !u.sign) :: s.model}
          {fr with forced := fr.forced ++ [u]} u
          (FrameInv_force s0 s fr u hinv ha')
        by_cases he : hasEmpty (unitPropagate {s with model := (u.var, !u.sign) :: s.model}
            u {fr with forced := fr.forced ++ [u]}).1 = true
        · rw [if_pos he] at h
          cases h
          exact hinv2
        · rw [if_neg he] at h
          exact ih _ _ hinv2 h

/-- The pure-literal loop of `_assign` preserves the frame invariant. -/
theorem FrameInv_assignPures (s0 : SolverState) (fuel : Nat) (s : SolverState)
    (fr : SolverDelta) (r : SolverState × SolverDelta)
    (hinv : FrameInv s0 s fr) (h : assignPures fuel s fr = some r) :
    FrameInv s0 r.1 r.2 := by
  induction fuel generalizing s fr with
  | zero => cases h
  | succ fuel ih =>
    rw [assignPures] at h
    cases hu : findPure s with
    | none =>
      rw [hu] at h
      cases h
      exact hinv
    | some p =>
      rw [hu] at h
      simp only [] at h
      by_cases ha : isAssigned s.model p.var = true
      · rw [if_pos ha] at h
        cases h
      · rw [if_neg ha] at h
        have ha' : isAssigned s.model p.var = false := Bool.eq_false_iff.mpr ha
        exact ih _ _ (FrameInv_pureAssign s0
          {s with model := (p.var, !p.sign) :: s.model}
          {fr with forced := fr.forced ++ [p]} p
          (FrameInv_force s0 s fr p hinv ha')) h

/-- Undoing a frame that satisfies the invariant restores the entry state exactly. -/
theorem undo_of_FrameInv (s0 s : SolverState) (fr : SolverDelta)
    (hinv : FrameInv s0 s fr) : undo (pushDelta s fr) = some s0 := by
  obtain ⟨e1, e2, e3, e4, e5, e6, e7, e8, e9, e10, e11, e12, e13, e14⟩ := hinv
  show some _ = some s0
  congr 1
  apply SolverState.ext
  · exact e1
  · show fr.forced.foldl (fun m l => eraseKey m l.var)
        (eraseKey s.model fr.principal.var) = s0.model
    rw [e7]
    exact undo_model_restore fr.principal fr.forced s0.model e8 e9 e10
  · exact e2
  · show fr.priors.foldl (fun cs p => cs.set p.1 p.2) s.clause_states = s0.clause_states
    exact restore_priors s0.clause_states fr.priors s.clause_states e11 e12 e13 e14
  · exact e3
  · exact e4
  · exact e5
  · exact e6

/-- C6: `_undo` exactly inverts `_assign`.  If `_assign` completes on state `s` (no
assertion fires), then `_undo` on the resulting state returns `s` itself: the model and
the clause-state table (and every other field) are restored bit for bit. -/
theorem C6_assign_undo (s : SolverState) (lit : Lit) (s1 : SolverState)
    (h : assign s lit = some s1) : undo s1 = some s := by
  rw [assign] at h
  by_cases ha : isAssigned s.model lit.var = true
  · rw [if_pos ha] at h
    cases h
  · rw [if_neg ha] at h
    simp only [] at h
    have ha' : isAssigned s.model lit.var = false := Bool.eq_false_iff.mpr ha
    have hinv1 := FrameInv_unitPropagate s
      {s with model := (lit.var, !lit.sign) :: s.model} ⟨[], lit, []⟩ lit
      (FrameInv_start s lit ha')
    by_cases he1 : hasEmpty (unitPropagate {s with model := (lit.var, !lit.sign) :: s.model}
        lit ⟨[], lit, []⟩).1 = true
    · rw [if_pos he1] at h
      cases h
      exact undo_of_FrameInv s _ _ hinv1
    · rw [if_neg he1] at h
      cases hau : assignUnits ({s with model := (lit.var, !lit.sign) :: s.model}.vars.length + 1)
          (unitPropagate {s with model := (lit.var, !lit.sign) :: s.model} lit ⟨[], lit, []⟩).1
          (unitPropagate {s with model := (lit.var, !lit.sign) :: s.model} lit ⟨[], lit, []⟩).2 with
      | none =>
        rw [hau] at h
        cases h
      | some p2 =>
        rw [hau] at h
        simp only [] at h
        have hinv2 := FrameInv_assignUnits s _ _ _ p2 hinv1 hau
        by_cases he2 : hasEmpty p2.1 = true
        · rw [if_pos he2] at h
          cases h
          exact undo_of_FrameInv s _ _ hinv2
        · rw [if_neg he2] at h
          cases hap : assignPures (p2.1.vars.length + 1) p2.1 p2.2 with
          | none =>
            rw [hap] at h
            cases h
          | some p3 =>
            rw [hap] at h
            cases h
            exact undo_of_FrameInv s _ _ (FrameInv_assignPures s _ _ _ p3 hinv2 hap)

/-- Witness for C6_assign_undo: assigning the positive literal of x1 on the initialized
state for (x1 ∨ x2) ∧ (¬x1 ∨ ¬x2) and undoing restores that state exactly. -/
theorem C6_assign_undo_witness :
    assign sPair ⟨1, false⟩ = some saPair ∧ undo saPair = some sPair :=
  ⟨by decide, C6_assign_undo sPair ⟨1, false⟩ saPair (by decide)⟩

end ccsat
